import Mathlib

/-!
Shallow embedding of the HammametGlow gamification core
(`src/backend/src/services/gamification.service.ts` and
`src/backend/src/services/firebase.service.ts`), together with proofs of the
specification's claims about it.

Firestore is modelled as an explicit state (`GState`) holding the three
collections the gamification service touches (`users`, `submissions`,
`badges`).  Asynchronous Firestore calls that may reject are modelled as
`Except String` computations.  Two failure models are used: a coarse
availability flag `dbFail` ("the durable store is unavailable", so every
call rejects), and a per-call failure schedule (the `...F` definitions
below) in which each awaited call may reject independently and a thrown
error does not roll back previously completed writes — the source awaits
each call separately with no transaction, so a badge-evaluation run can
fail after some of its grants have been written.
The Redis `CacheService` calls made by the service (`invalidateUserCache`,
`invalidateLeaderboardCache`) wrap all their work in try/catch blocks that
log and return, so they never throw and touch no Firestore state; they are
therefore not represented in the state.
-/

/-- Submission status, from the `Submission` interface in the backend types
(`'pending' | 'approved' | 'rejected'`). -/
inductive SubStatus where
  | pending
  | approved
  | rejected
deriving DecidableEq, Repr

/-- A challenge submission document.  Only the fields read by the
gamification service are represented.  The declared `Submission` interface
has no `score` field; `checkAndAwardBadges` reads it through an `any` cast,
so it is optional here, and a missing score fails the `score >= 95` test
just as `undefined >= 95` is false in JavaScript. -/
structure Submission where
  userId : String
  status : SubStatus
  score : Option Int := none
deriving DecidableEq, Repr

/-- A document of the `badges` collection, as written by
`FirebaseService.createBadge`: the owning user, the badge type string, and
the creation timestamp. -/
structure BadgeDoc where
  userId : String
  type : String
  createdAt : Nat
deriving DecidableEq, Repr

/-- A document of the `users` collection, following the `User` interface in
the backend types.  `points` and `totalPoints` are optional because stored
documents may lack them — registration (`auth.routes.ts`) writes `points: 0`
but no `totalPoints` field at all — and `awardPoints` defends with
`user.points || 0` / `user.totalPoints || 0`.  Timestamps are abstracted to
`Nat` ticks. -/
structure User where
  uid : String
  email : String
  displayName : Option String := none
  photoURL : Option String := none
  role : String := "citizen"
  points : Option Int := none
  totalPoints : Option Int := none
  level : Int := 1
  badges : List String := []
  completedChallenges : List String := []
  createdAt : Nat := 0
  updatedAt : Nat := 0
  lastLoginAt : Option Nat := none
  bio : Option String := none
  location : Option String := none
deriving DecidableEq, Repr

/-- JavaScript `x || 0` on a possibly-missing numeric field: a missing field
reads as `0` (and `0 || 0` is also `0`). -/
def orZero (x : Option Int) : Int := x.getD 0

/-- The Firestore world state: the three collections the gamification
service touches, a persistence-failure flag, and the current clock tick
(standing for `new Date().toISOString()`). -/
structure GState where
  users : List (String × User)
  submissions : List Submission
  badges : List BadgeDoc
  dbFail : Bool := false
  now : Nat := 0
deriving DecidableEq, Repr

/-- Document lookup by id in the `users` collection. -/
def assocFind (users : List (String × User)) (u : String) : Option User :=
  match users with
  | [] => none
  | (k, v) :: rest => if k = u then some v else assocFind rest u

/-- Apply an update function to the document with the given id, leaving
every other document unchanged (Firestore `.doc(id).update(...)`). -/
def replaceUser (users : List (String × User)) (u : String) (f : User → User) :
    List (String × User) :=
  match users with
  | [] => []
  | (k, v) :: rest => (if k = u then (k, f v) else (k, v)) :: replaceUser rest u f

/-- The partial update record passed to `FirebaseService.updateUser` by the
gamification service.  `awardPoints` only ever sends the `points` and
`totalPoints` fields, so only those are represented; a `none` field is
absent from the update and leaves the stored value untouched. -/
structure UserUpdates where
  points : Option Int := none
  totalPoints : Option Int := none
deriving DecidableEq, Repr

/-- `{...updates, updatedAt: new Date().toISOString()}` merged into the
stored document: present update fields overwrite, and `updatedAt` is always
set to the current time. -/
def applyUpdates (now : Nat) (upd : UserUpdates) (u : User) : User :=
  { u with
    points := match upd.points with | some p => some p | none => u.points
    totalPoints := match upd.totalPoints with | some t => some t | none => u.totalPoints
    updatedAt := now }

/-- `FirebaseService.getUser`: fetch a user document by id; `null` when the
document does not exist.  Rejects when the store is unavailable. -/
def FirebaseService.getUser (s : GState) (userId : String) :
    Except String (Option User) :=
  if s.dbFail then .error "PersistenceError" else .ok (assocFind s.users userId)

/-- `FirebaseService.updateUser`: merge an update into an existing user
document, always stamping `updatedAt`.  Firestore's `.update()` rejects when
the document does not exist. -/
def FirebaseService.updateUser (s : GState) (userId : String) (upd : UserUpdates) :
    Except String GState :=
  if s.dbFail then .error "PersistenceError"
  else if (assocFind s.users userId).isNone then .error "PersistenceError"
  else .ok { s with users := replaceUser s.users userId (applyUpdates s.now upd) }

/-- The Firestore query behind `FirebaseService.getUserSubmissions`:
`submissions` filtered by `userId`.  The query's `createdAt`-descending
ordering is not represented because the gamification service only counts and
filters the result. -/
def userSubmissions (s : GState) (u : String) : List Submission :=
  s.submissions.filter (fun sub => decide (sub.userId = u))

/-- `FirebaseService.getUserSubmissions`. -/
def FirebaseService.getUserSubmissions (s : GState) (userId : String) :
    Except String (List Submission) :=
  if s.dbFail then .error "PersistenceError" else .ok (userSubmissions s userId)

/-- The Firestore query behind `FirebaseService.getUserBadges`: `badges`
filtered by `userId` (ordering again irrelevant to the service, which only
maps to types and tests membership). -/
def userBadges (s : GState) (u : String) : List BadgeDoc :=
  s.badges.filter (fun d => decide (d.userId = u))

/-- `FirebaseService.getUserBadges`. -/
def FirebaseService.getUserBadges (s : GState) (userId : String) :
    Except String (List BadgeDoc) :=
  if s.dbFail then .error "PersistenceError" else .ok (userBadges s userId)

/-- The badge document created by `FirebaseService.createBadge` for a grant:
owner, badge type, creation time. -/
def mkBadgeDoc (now : Nat) (userId badge : String) : BadgeDoc :=
  { userId := userId, type := badge, createdAt := now }

/-- `FirebaseService.awardBadge`: append one badge document (via
`createBadge`, which `.add`s to the `badges` collection). -/
def FirebaseService.awardBadge (s : GState) (userId badge : String) :
    Except String GState :=
  if s.dbFail then .error "PersistenceError"
  else .ok { s with badges := s.badges ++ [mkBadgeDoc s.now userId badge] }

/-- `GamificationService.awardPoints`: fetch the user (throwing
`'User not found'` when absent), add `points` to both the `points` and
`totalPoints` fields, and write the update.  The source function resolves
`Promise<void>`, mirrored by the `Unit` value component; its `catch` block
logs and rethrows, so errors propagate unchanged. -/
def GamificationService.awardPoints (s : GState) (userId : String) (points : Int)
    (_reason : String) : Except String (Unit × GState) :=
  match FirebaseService.getUser s userId with
  | .error e => .error e
  | .ok none => .error "User not found"
  | .ok (some user) =>
    let currentPoints := orZero user.points
    let newPoints := currentPoints + points
    match FirebaseService.updateUser s userId
        { points := some newPoints,
          totalPoints := some (orZero user.totalPoints + points) } with
    | .error e => .error e
    | .ok s' => .ok ((), s')

/-- The six badge checks of `checkAndAwardBadges`, in source order, as
(badge type, threshold condition) pairs computed from the counters the
service derives: `completedChallenges` (approved submissions count),
`approvedSubmissions.length` (the same count, under the source's second
name, used by the photographer check) and the perfect-submission count
(approved submissions with `score >= 95`). -/
def badgeRules (completedChallenges approvedCount perfectCount : Nat) :
    List (String × Bool) :=
  [ ("first_steps", decide (1 ≤ completedChallenges)),
    ("explorer", decide (5 ≤ completedChallenges)),
    ("adventurer", decide (10 ≤ completedChallenges)),
    ("master_explorer", decide (25 ≤ completedChallenges)),
    ("photographer", decide (10 ≤ approvedCount)),
    ("perfectionist", decide (5 ≤ perfectCount)) ]

/-- One `if (condition && !earnedBadgeTypes.includes(badge))` block of
`checkAndAwardBadges`: when the threshold holds and the badge type is not
among the types fetched at the start of the call, award the badge and push
it onto `newBadges`. -/
def tryAward (userId : String) (earnedBadgeTypes : List String)
    (acc : GState × List String) (rule : String × Bool) :
    Except String (GState × List String) :=
  match acc, rule with
  | (s, newBadges), (badge, cond) =>
    if cond && !(earnedBadgeTypes.contains badge) then
      match FirebaseService.awardBadge s userId badge with
      | .error e => .error e
      | .ok s' => .ok (s', newBadges ++ [badge])
    else .ok (s, newBadges)

/-- The six `if` blocks of `checkAndAwardBadges` run in source order: each
consults the badge-type list fetched once at the start of the call, awards
when its condition passes, and threads the store state left to right. -/
def runRules (userId : String) (earnedBadgeTypes : List String)
    (acc : GState × List String) :
    List (String × Bool) → Except String (GState × List String)
  | [] => .ok acc
  | rule :: rest =>
    match tryAward userId earnedBadgeTypes acc rule with
    | .error e => .error e
    | .ok acc' => runRules userId earnedBadgeTypes acc' rest

/-- The `try` body of `GamificationService.checkAndAwardBadges`: fetch the
user (returning `[]` when absent), fetch the already-earned badge types and
the user's submissions, derive the counters, then run the six threshold
checks in order. -/
def GamificationService.checkAndAwardBadgesCore (s : GState) (userId : String) :
    Except String (List String × GState) :=
  match FirebaseService.getUser s userId with
  | .error e => .error e
  | .ok none => .ok ([], s)
  | .ok (some _user) =>
    match FirebaseService.getUserBadges s userId with
    | .error e => .error e
    | .ok fetchedBadges =>
      let earnedBadgeTypes := fetchedBadges.map (·.type)
      match FirebaseService.getUserSubmissions s userId with
      | .error e => .error e
      | .ok submissions =>
        let approvedSubmissions :=
          submissions.filter (fun sub => decide (sub.status = SubStatus.approved))
        let completedChallenges := approvedSubmissions.length
        let perfectSubmissions :=
          (approvedSubmissions.filter
            (fun sub => match sub.score with
              | some v => decide (95 ≤ v)
              | none => false)).length
        match runRules userId earnedBadgeTypes (s, [])
                (badgeRules completedChallenges approvedSubmissions.length
                  perfectSubmissions) with
        | .error e => .error e
        | .ok (s', newBadges) => .ok (newBadges, s')

/-- `GamificationService.checkAndAwardBadges`: the `try` body above wrapped
in the source's `catch`, which logs the error and returns `[]`.  Under the
coarse availability flag every rejection happens at the first Firestore
call (`getUser`), before any write, so here the catch branch returns the
unchanged input state; the per-call failure model
(`checkAndAwardBadgesF` below) captures the source's runs in which the
catch fires only after some grants were already written. -/
def GamificationService.checkAndAwardBadges (s : GState) (userId : String) :
    List String × GState :=
  match GamificationService.checkAndAwardBadgesCore s userId with
  | .error _ => ([], s)
  | .ok r => r

/-- The record resolved by `GamificationService.getUserRank`. -/
structure RankResult where
  rank : Nat
  totalUsers : Nat
  percentile : Nat
deriving DecidableEq, Repr

/-- `GamificationService.getUserRank`: the source body is a placeholder
(`// This is a placeholder - implement proper ranking logic`) that ignores
both the store and the user id and resolves fixed values; its `catch`
rethrows, but the body cannot throw. -/
def GamificationService.getUserRank (_s : GState) (_userId : String) :
    Except String RankResult :=
  .ok { rank := 1, totalUsers := 100, percentile := 99 }

/-- Per-call failure schedule: the head says whether the next awaited
Firestore call rejects; an exhausted schedule means no further failures. -/
def nextFault (faults : List Bool) : Bool × List Bool :=
  match faults with
  | [] => (false, [])
  | f :: rest => (f, rest)

/-- Per-call failure model of `FirebaseService.getUser`: the call consumes
one schedule entry and may reject on its own.  A rejection carries the
store state at the moment of the throw, because a thrown JavaScript error
does not roll back previously completed Firestore writes. -/
def FirebaseService.getUserF (s : GState) (faults : List Bool) (userId : String) :
    Except (String × GState × List Bool) (Option User × GState × List Bool) :=
  match nextFault faults with
  | (true, rest) => .error ("PersistenceError", s, rest)
  | (false, rest) => .ok (assocFind s.users userId, s, rest)

/-- Per-call failure model of `FirebaseService.getUserBadges`. -/
def FirebaseService.getUserBadgesF (s : GState) (faults : List Bool) (userId : String) :
    Except (String × GState × List Bool) (List BadgeDoc × GState × List Bool) :=
  match nextFault faults with
  | (true, rest) => .error ("PersistenceError", s, rest)
  | (false, rest) => .ok (userBadges s userId, s, rest)

/-- Per-call failure model of `FirebaseService.getUserSubmissions`. -/
def FirebaseService.getUserSubmissionsF (s : GState) (faults : List Bool) (userId : String) :
    Except (String × GState × List Bool) (List Submission × GState × List Bool) :=
  match nextFault faults with
  | (true, rest) => .error ("PersistenceError", s, rest)
  | (false, rest) => .ok (userSubmissions s userId, s, rest)

/-- Per-call failure model of `FirebaseService.awardBadge`: on success the
grant document is appended; on rejection nothing is written, but grants
already appended by earlier calls of the same run remain. -/
def FirebaseService.awardBadgeF (s : GState) (faults : List Bool) (userId badge : String) :
    Except (String × GState × List Bool) (GState × List Bool) :=
  match nextFault faults with
  | (true, rest) => .error ("PersistenceError", s, rest)
  | (false, rest) =>
    .ok ({ s with badges := s.badges ++ [mkBadgeDoc s.now userId badge] }, rest)

/-- One `if` block of `checkAndAwardBadges` under the per-call failure
model. -/
def tryAwardF (userId : String) (earnedBadgeTypes : List String)
    (acc : GState × List Bool × List String) (rule : String × Bool) :
    Except (String × GState × List Bool) (GState × List Bool × List String) :=
  match acc, rule with
  | (s, faults, newBadges), (badge, cond) =>
    if cond && !(earnedBadgeTypes.contains badge) then
      match FirebaseService.awardBadgeF s faults userId badge with
      | .error e => .error e
      | .ok (s', rest) => .ok (s', rest, newBadges ++ [badge])
    else .ok (s, faults, newBadges)

/-- The six badge checks in source order under the per-call failure
model. -/
def runRulesF (userId : String) (earnedBadgeTypes : List String)
    (acc : GState × List Bool × List String) :
    List (String × Bool) →
      Except (String × GState × List Bool) (GState × List Bool × List String)
  | [] => .ok acc
  | rule :: rest =>
    match tryAwardF userId earnedBadgeTypes acc rule with
    | .error e => .error e
    | .ok acc' => runRulesF userId earnedBadgeTypes acc' rest

/-- The `try` body of `checkAndAwardBadges` under the per-call failure
model: any of the awaited calls may reject, and a rejection surfaces with
whatever state the run had built up to that point. -/
def GamificationService.checkAndAwardBadgesCoreF (s : GState) (faults : List Bool)
    (userId : String) :
    Except (String × GState × List Bool) (List String × GState × List Bool) :=
  match FirebaseService.getUserF s faults userId with
  | .error e => .error e
  | .ok (user?, s1, f1) =>
    match user? with
    | none => .ok ([], s1, f1)
    | some _user =>
      match FirebaseService.getUserBadgesF s1 f1 userId with
      | .error e => .error e
      | .ok (fetchedBadges, s2, f2) =>
        let earnedBadgeTypes := fetchedBadges.map (·.type)
        match FirebaseService.getUserSubmissionsF s2 f2 userId with
        | .error e => .error e
        | .ok (submissions, s3, f3) =>
          let approvedSubmissions :=
            submissions.filter (fun sub => decide (sub.status = SubStatus.approved))
          let completedChallenges := approvedSubmissions.length
          let perfectSubmissions :=
            (approvedSubmissions.filter
              (fun sub => match sub.score with
                | some v => decide (95 ≤ v)
                | none => false)).length
          match runRulesF userId earnedBadgeTypes (s3, f3, [])
              (badgeRules completedChallenges approvedSubmissions.length
                perfectSubmissions) with
          | .error e => .error e
          | .ok (s4, f4, newBadges) => .ok (newBadges, s4, f4)

/-- `checkAndAwardBadges` under the per-call failure model: the source's
`catch` logs and returns `[]`, and — since the thrown error rolls nothing
back — the store keeps every grant written before the rejection. -/
def GamificationService.checkAndAwardBadgesF (s : GState) (faults : List Bool)
    (userId : String) : List String × GState × List Bool :=
  match GamificationService.checkAndAwardBadgesCoreF s faults userId with
  | .error (_, s', f') => ([], s', f')
  | .ok r => r

/-- The user-scoped counters, named at top level for the statements below;
these are exactly the values `checkAndAwardBadges` derives from the fetched
submissions. -/
def approvedSubmissionsOf (s : GState) (u : String) : List Submission :=
  (userSubmissions s u).filter (fun sub => decide (sub.status = SubStatus.approved))

/-- The `completedChallenges` counter: number of approved submissions. -/
def completedCount (s : GState) (u : String) : Nat :=
  (approvedSubmissionsOf s u).length

/-- The perfect-submission counter: approved submissions whose score is at
least 95. -/
def perfectCount (s : GState) (u : String) : Nat :=
  ((approvedSubmissionsOf s u).filter
    (fun sub => match sub.score with
      | some v => decide (95 ≤ v)
      | none => false)).length

/-- The badge types already granted to a user, as consulted by
`checkAndAwardBadges`. -/
def earnedTypes (s : GState) (u : String) : List String :=
  (userBadges s u).map (·.type)

/-- The user's stored `totalPoints` field, when the user exists and the
field is present. -/
def userTotal (s : GState) (u : String) : Option Int :=
  match assocFind s.users u with
  | some us => us.totalPoints
  | none => none

/-- The user's `totalPoints` read the way the service reads it: a missing
field (or missing user) counts as `0`. -/
def userTotalZ (s : GState) (u : String) : Int := orZero (userTotal s u)

/-- The two core operations the spec's sequences are built from. -/
inductive Op where
  | award (userId : String) (points : Int) (reason : String)
  | evaluate (userId : String)
deriving DecidableEq, Repr

/-- Run one operation against the store.  A rejected `awardPoints` leaves
the store unchanged (its only write is the single atomic `updateUser`);
`checkAndAwardBadges` never rejects (its catch swallows). -/
def runOp (s : GState) : Op → GState
  | .award u p r =>
    match GamificationService.awardPoints s u p r with
    | .ok (_, s') => s'
    | .error _ => s
  | .evaluate u => (GamificationService.checkAndAwardBadges s u).2

/-- Run a sequence of operations left to right. -/
def runOps (s : GState) (ops : List Op) : GState := ops.foldl runOp s

/-- The points contributed to user `u` by one operation of a sequence. -/
def opPoints (u : String) : Op → Int
  | .award v p _ => if v = u then p else 0
  | .evaluate _ => 0

/-- Sum of the `points` arguments of the `award` calls for user `u` in a
sequence of operations. -/
def awardSum (u : String) (ops : List Op) : Int := (ops.map (opPoints u)).sum

/-- The no-duplicate-grant invariant of the badges collection: no two
grant documents agree on both owner and badge type, i.e. at most one grant
exists per (userId, badgeId) pair. -/
def atMostOneGrant (s : GState) : Prop :=
  s.badges.Pairwise (fun d1 d2 => ¬ (d1.userId = d2.userId ∧ d1.type = d2.type))

instance (s : GState) : Decidable (atMostOneGrant s) := by
  unfold atMostOneGrant
  infer_instance

/-- Modelled from the spec: the §4.1 Ledger contract
`award(userId, points, reason) -> NewTotal`, which "recomputes and returns
the user's new totalPoints as previousTotal + points".  Only the returned
value is modelled here, for comparison with the source's `awardPoints`
(which resolves no value); the state effect is the source's. -/
def Ledger.award (s : GState) (userId : String) (points : Int) (reason : String) :
    Except String (Int × GState) :=
  match GamificationService.awardPoints s userId points reason with
  | .error e => .error e
  | .ok (_, s') => .ok (userTotalZ s' userId, s')

/-- Modelled from the spec: no level-derivation code exists under `src` —
registration stores a constant default `level: 1` and the profile page only
renders a progress bar — so the threshold table of §4.1 is taken from the
repository's design notes (level 1 from 0 points, level 2 from 101, level 3
from 301, level 4 from 701), strictly increasing with `threshold(1) = 0`. -/
def levelThresholds : List Int := [0, 101, 301, 701]

/-- Modelled from the spec: §4.1 — "level is the largest L such that
`totalPoints >= threshold(L)`", computed as the number of table entries not
exceeding `totalPoints`. -/
def levelOf (totalPoints : Int) : Nat :=
  (levelThresholds.filter (fun t => decide (t ≤ totalPoints))).length

/-- A registered user, exactly as `auth.routes.ts` creates the document:
`points: 0`, `level: 1`, empty badge list, and no `totalPoints` field. -/
def demoUser : User :=
  { uid := "u1", email := "u1@example.com", role := "citizen",
    points := some 0, level := 1, badges := [] }

/-- A store holding the single registered user `u1`. -/
def demoState : GState :=
  { users := [("u1", demoUser)], submissions := [], badges := [], now := 5 }

/-- The same store with the durable store unavailable. -/
def failState : GState := { demoState with dbFail := true }

/-- An empty store. -/
def emptyState : GState :=
  { users := [], submissions := [], badges := [], now := 0 }

/-- A store where `u1` has one approved submission and no badges yet. -/
def oneSubState : GState :=
  { users := [("u1", demoUser)],
    submissions := [{ userId := "u1", status := SubStatus.approved, score := some 80 }],
    badges := [], now := 7 }

/-- A store where `u1` has five approved submissions and no badges yet, so
both the first-steps and the explorer criteria hold. -/
def fiveSubState : GState :=
  { users := [("u1", demoUser)],
    submissions :=
      [{ userId := "u1", status := SubStatus.approved, score := some 80 },
       { userId := "u1", status := SubStatus.approved, score := some 75 },
       { userId := "u1", status := SubStatus.approved, score := some 88 },
       { userId := "u1", status := SubStatus.approved, score := some 60 },
       { userId := "u1", status := SubStatus.approved, score := some 91 }],
    badges := [], now := 9 }

example : (GamificationService.awardPoints demoState "u1" 100 "challenge").map
    (fun r => userTotal r.2 "u1") = .ok (some 100) := rfl

example : GamificationService.awardPoints demoState "ghost" 100 "x"
    = .error "User not found" := rfl

example : (GamificationService.checkAndAwardBadges oneSubState "u1").1
    = ["first_steps"] := by decide

example :
    (GamificationService.checkAndAwardBadges
      (GamificationService.checkAndAwardBadges oneSubState "u1").2 "u1").1 = [] := by
  decide

example : GamificationService.checkAndAwardBadges failState "u1" = ([], failState) := by
  decide

example : levelOf 0 = 1 ∧ levelOf 100 = 1 ∧ levelOf 101 = 2 ∧ levelOf 800 = 4 := by
  decide

lemma assocFind_replaceUser_same (users : List (String × User)) (u : String)
    (f : User → User) :
    assocFind (replaceUser users u f) u = (assocFind users u).map f := by
  induction users with
  | nil => simp [assocFind, replaceUser]
  | cons p rest ih =>
    obtain ⟨k, a⟩ := p
    by_cases hku : k = u
    · simp only [replaceUser]
      rw [if_pos hku]
      subst hku
      simp [assocFind, ih]
    · simp only [replaceUser]
      rw [if_neg hku]
      simp [assocFind, hku, ih]

lemma assocFind_replaceUser_other (users : List (String × User)) (u v : String)
    (f : User → User) (hvu : v ≠ u) :
    assocFind (replaceUser users u f) v = assocFind users v := by
  induction users with
  | nil => simp [assocFind, replaceUser]
  | cons p rest ih =>
    obtain ⟨k, a⟩ := p
    by_cases hku : k = u
    · have hkv : k ≠ v := fun h => hvu (h ▸ hku)
      simp only [replaceUser]
      rw [if_pos hku]
      simp [assocFind, hkv, ih]
    · simp only [replaceUser]
      rw [if_neg hku]
      by_cases hkv : k = v
      · simp [assocFind, hkv]
      · simp [assocFind, hkv, ih]

lemma updateUser_ok (s : GState) (u : String) (upd : UserUpdates) (us : User)
    (hdb : s.dbFail = false) (hu : assocFind s.users u = some us) :
    FirebaseService.updateUser s u upd
      = .ok { s with users := replaceUser s.users u (applyUpdates s.now upd) } := by
  simp [FirebaseService.updateUser, hdb, hu]

/-- Successful `awardPoints` written out: the single `updateUser` write,
applied to the fetched document. -/
lemma awardPoints_ok (s : GState) (u : String) (p : Int) (r : String) (us : User)
    (hdb : s.dbFail = false) (hu : assocFind s.users u = some us) :
    GamificationService.awardPoints s u p r
      = .ok ((), { s with users := replaceUser s.users u (applyUpdates s.now
          { points := some (orZero us.points + p),
            totalPoints := some (orZero us.totalPoints + p) }) }) := by
  simp [GamificationService.awardPoints, FirebaseService.getUser, hdb, hu,
    updateUser_ok s u _ us hdb hu]

lemma awardPoints_not_found (s : GState) (u : String) (p : Int) (r : String)
    (hdb : s.dbFail = false) (hu : assocFind s.users u = none) :
    GamificationService.awardPoints s u p r = .error "User not found" := by
  simp [GamificationService.awardPoints, FirebaseService.getUser, hdb, hu]

lemma awardPoints_dbFail (s : GState) (u : String) (p : Int) (r : String)
    (h : s.dbFail = true) :
    GamificationService.awardPoints s u p r = .error "PersistenceError" := by
  simp [GamificationService.awardPoints, FirebaseService.getUser, h]

lemma applyUpdates_both (now : Nat) (a b : Int) (us : User) :
    applyUpdates now { points := some a, totalPoints := some b } us
      = { us with points := some a, totalPoints := some b, updatedAt := now } := rfl

/-- Full behaviour of a run of badge checks when the store is available:
it succeeds, appends exactly the newly granted types both to the
accumulator and (as badge documents for this user) to the store, touches no
other part of the state, and grants a type exactly when some rule for it
has a true condition and it was not among the initially fetched types. -/
lemma runRules_spec (userId : String) (earned : List String) :
    ∀ (rules : List (String × Bool)) (s0 : GState) (acc : List String),
      s0.dbFail = false →
      ∃ (s' : GState) (new : List String),
        runRules userId earned (s0, acc) rules = .ok (s', acc ++ new) ∧
        s'.users = s0.users ∧ s'.submissions = s0.submissions ∧
        s'.dbFail = s0.dbFail ∧ s'.now = s0.now ∧
        s'.badges = s0.badges ++ new.map (mkBadgeDoc s0.now userId) ∧
        new.Sublist (rules.map Prod.fst) ∧
        (∀ b, b ∈ new ↔ (b ∉ earned ∧ ∃ c, (b, c) ∈ rules ∧ c = true)) := by
  intro rules
  induction rules with
  | nil =>
    intro s0 acc h
    refine ⟨s0, [], by simp [runRules], rfl, rfl, rfl, rfl, by simp, by simp, ?_⟩
    intro b
    simp
  | cons rule rest ih =>
    intro s0 acc h
    obtain ⟨bn, cond⟩ := rule
    by_cases hc : (cond && !(earned.contains bn)) = true
    · obtain ⟨hcond, hnotearned⟩ : cond = true ∧ bn ∉ earned := by simpa using hc
      have hstep : tryAward userId earned (s0, acc) (bn, cond)
          = .ok ({ s0 with badges := s0.badges ++ [mkBadgeDoc s0.now userId bn] },
                 acc ++ [bn]) := by
        simp only [tryAward]
        rw [if_pos hc]
        simp [FirebaseService.awardBadge, h]
      obtain ⟨s', new', hrun, hu, hs, hd, hn, hb, hsub, hiff⟩ :=
        ih { s0 with badges := s0.badges ++ [mkBadgeDoc s0.now userId bn] }
          (acc ++ [bn]) h
      refine ⟨s', bn :: new', ?_, hu, hs, hd, hn, ?_, ?_, ?_⟩
      · simp only [runRules, hstep, hrun]
        simp
      · rw [hb]
        simp
      · simpa using hsub.cons₂ bn
      · intro b
        constructor
        · intro hbmem
          rcases List.mem_cons.mp hbmem with hb1 | hb2
          · subst hb1
            exact ⟨hnotearned, cond, List.mem_cons_self _ _, hcond⟩
          · obtain ⟨hne, c, hcmem, hctrue⟩ := (hiff b).mp hb2
            exact ⟨hne, c, List.mem_cons_of_mem _ hcmem, hctrue⟩
        · rintro ⟨hne, c, hcmem, hctrue⟩
          rcases List.mem_cons.mp hcmem with heq | hcm
          · exact List.mem_cons.mpr (Or.inl (congrArg Prod.fst heq))
          · exact List.mem_cons.mpr (Or.inr ((hiff b).mpr ⟨hne, c, hcm, hctrue⟩))
    · have hstep : tryAward userId earned (s0, acc) (bn, cond) = .ok (s0, acc) := by
        simp only [tryAward]
        rw [if_neg hc]
      obtain ⟨s', new', hrun, hu, hs, hd, hn, hb, hsub, hiff⟩ := ih s0 acc h
      refine ⟨s', new', ?_, hu, hs, hd, hn, hb, ?_, ?_⟩
      · simp only [runRules, hstep, hrun]
      · simpa using hsub.cons bn
      · intro b
        constructor
        · intro hbmem
          obtain ⟨hne, c, hcmem, hctrue⟩ := (hiff b).mp hbmem
          exact ⟨hne, c, List.mem_cons_of_mem _ hcmem, hctrue⟩
        · rintro ⟨hne, c, hcmem, hctrue⟩
          rcases List.mem_cons.mp hcmem with heq | hcm
          · exfalso
            have hbbn : b = bn := congrArg Prod.fst heq
            have hccond : c = cond := congrArg Prod.snd heq
            have hcondtrue : cond = true := hccond ▸ hctrue
            have hbnin : bn ∈ earned := by
              simp [hcondtrue] at hc
              exact hc
            exact hne (hbbn ▸ hbnin)
          · exact (hiff b).mpr ⟨hne, c, hcm, hctrue⟩

lemma check_dbFail (s : GState) (u : String) (h : s.dbFail = true) :
    GamificationService.checkAndAwardBadges s u = ([], s) := by
  simp [GamificationService.checkAndAwardBadges,
    GamificationService.checkAndAwardBadgesCore, FirebaseService.getUser, h]

lemma check_not_found (s : GState) (u : String) (hu : assocFind s.users u = none) :
    GamificationService.checkAndAwardBadges s u = ([], s) := by
  cases hdb : s.dbFail
  · simp [GamificationService.checkAndAwardBadges,
      GamificationService.checkAndAwardBadgesCore, FirebaseService.getUser, hdb, hu]
  · exact check_dbFail s u hdb

/-- With the store available and the user present, the `try` body reduces to
the badge-check run over the top-level counters. -/
lemma checkCore_found (s : GState) (u : String) (us : User)
    (hdb : s.dbFail = false) (hu : assocFind s.users u = some us) :
    GamificationService.checkAndAwardBadgesCore s u
      = match runRules u (earnedTypes s u) (s, [])
          (badgeRules (completedCount s u) (completedCount s u) (perfectCount s u)) with
        | .error e => .error e
        | .ok (s', newBadges) => .ok (newBadges, s') := by
  simp only [GamificationService.checkAndAwardBadgesCore, FirebaseService.getUser,
    FirebaseService.getUserBadges, FirebaseService.getUserSubmissions, hdb, hu,
    Bool.false_eq_true, if_false]
  rfl

/-- Full behaviour of `checkAndAwardBadges` when the store is available and
the user exists: it returns the granted types, appends exactly those grant
documents, changes nothing else, and grants a type exactly when its
criterion holds and it was not already earned. -/
lemma check_found_spec (s : GState) (u : String) (us : User)
    (hdb : s.dbFail = false) (hu : assocFind s.users u = some us) :
    ∃ (new : List String) (s' : GState),
      GamificationService.checkAndAwardBadges s u = (new, s') ∧
      s'.users = s.users ∧ s'.submissions = s.submissions ∧
      s'.dbFail = s.dbFail ∧ s'.now = s.now ∧
      s'.badges = s.badges ++ new.map (mkBadgeDoc s.now u) ∧
      new.Sublist ["first_steps", "explorer", "adventurer", "master_explorer",
        "photographer", "perfectionist"] ∧
      (∀ b, b ∈ new ↔ (b ∉ earnedTypes s u ∧ ∃ c,
        (b, c) ∈ badgeRules (completedCount s u) (completedCount s u)
          (perfectCount s u) ∧ c = true)) := by
  obtain ⟨s', new, hrun, hus, hsubs, hdb', hnow, hbadges, hsublist, hiff⟩ :=
    runRules_spec u (earnedTypes s u)
      (badgeRules (completedCount s u) (completedCount s u) (perfectCount s u)) s [] hdb
  refine ⟨new, s', ?_, hus, hsubs, hdb', hnow, hbadges, ?_, hiff⟩
  · rw [GamificationService.checkAndAwardBadges, checkCore_found s u us hdb hu, hrun]
    simp
  · simpa [badgeRules] using hsublist

/-- `checkAndAwardBadges` never touches the users or submissions
collections, the failure flag, or the clock, in any case. -/
lemma check_frame (s : GState) (u : String) :
    ((GamificationService.checkAndAwardBadges s u).2).users = s.users ∧
    ((GamificationService.checkAndAwardBadges s u).2).submissions = s.submissions ∧
    ((GamificationService.checkAndAwardBadges s u).2).dbFail = s.dbFail ∧
    ((GamificationService.checkAndAwardBadges s u).2).now = s.now := by
  cases hdb : s.dbFail
  · cases hu : assocFind s.users u with
    | none =>
      rw [check_not_found s u hu]
      exact ⟨rfl, rfl, hdb, rfl⟩
    | some us =>
      obtain ⟨new, s', heq, hus, hsubs, hdb', hnow, _, _, _⟩ :=
        check_found_spec s u us hdb hu
      rw [heq]
      exact ⟨hus, hsubs, hdb'.trans hdb, hnow⟩
  · rw [check_dbFail s u hdb]
    exact ⟨rfl, rfl, hdb, rfl⟩

/-- An `award` step either leaves the store unchanged (rejection) or
performs exactly its one `updateUser` write. -/
lemma runOp_award_cases (s : GState) (u : String) (p : Int) (r : String) :
    runOp s (.award u p r) = s ∨
    ∃ us, s.dbFail = false ∧ assocFind s.users u = some us ∧
      runOp s (.award u p r)
        = { s with users := replaceUser s.users u (applyUpdates s.now
            { points := some (orZero us.points + p),
              totalPoints := some (orZero us.totalPoints + p) }) } := by
  by_cases hdb : s.dbFail = true
  · left
    simp [runOp, awardPoints_dbFail s u p r hdb]
  · have hdb' : s.dbFail = false := by simpa using hdb
    by_cases hs : (assocFind s.users u).isSome
    · obtain ⟨us, hu⟩ := Option.isSome_iff_exists.mp hs
      right
      refine ⟨us, hdb', hu, ?_⟩
      simp [runOp, awardPoints_ok s u p r us hdb' hu]
    · have hu : assocFind s.users u = none := Option.not_isSome_iff_eq_none.mp hs
      left
      simp [runOp, awardPoints_not_found s u p r hdb' hu]

lemma runOp_dbFail (s : GState) (op : Op) : (runOp s op).dbFail = s.dbFail := by
  cases op with
  | award u p r =>
    rcases runOp_award_cases s u p r with h | ⟨us, _, _, h⟩ <;> rw [h]
  | evaluate u => exact (check_frame s u).2.2.1

lemma runOp_submissions (s : GState) (op : Op) :
    (runOp s op).submissions = s.submissions := by
  cases op with
  | award u p r =>
    rcases runOp_award_cases s u p r with h | ⟨us, _, _, h⟩ <;> rw [h]
  | evaluate u => exact (check_frame s u).2.1

lemma runOp_isSome (s : GState) (op : Op) (u : String) :
    (assocFind (runOp s op).users u).isSome = (assocFind s.users u).isSome := by
  cases op with
  | award v p r =>
    rcases runOp_award_cases s v p r with h | ⟨us, _, hv, h⟩
    · rw [h]
    · rw [h]
      by_cases hvu : u = v
      · subst hvu
        simp [assocFind_replaceUser_same, hv]
      · simp [assocFind_replaceUser_other _ _ _ _ hvu]
  | evaluate v =>
    simp only [runOp]
    rw [(check_frame s v).1]

/-- One step of the totals ledger: a successful award to `u` adds its
points to `u`'s running total read the way the service reads it; every
other operation leaves that total unchanged. -/
lemma runOp_totalZ (s : GState) (op : Op) (u : String)
    (hdb : s.dbFail = false) (hu : (assocFind s.users u).isSome) :
    userTotalZ (runOp s op) u = userTotalZ s u + opPoints u op := by
  cases op with
  | evaluate v =>
    have h := (check_frame s v).1
    simp [runOp, userTotalZ, userTotal, h, opPoints]
  | award v p r =>
    by_cases hvu : v = u
    · subst hvu
      obtain ⟨us, hus⟩ := Option.isSome_iff_exists.mp hu
      have hrun : runOp s (.award v p r)
          = { s with users := replaceUser s.users v (applyUpdates s.now
              { points := some (orZero us.points + p),
                totalPoints := some (orZero us.totalPoints + p) }) } := by
        simp [runOp, awardPoints_ok s v p r us hdb hus]
      rw [hrun]
      simp [userTotalZ, userTotal, assocFind_replaceUser_same, hus,
        applyUpdates, orZero, opPoints]
    · have hstep : ∀ t, runOp s (.award v p r) = t →
        assocFind t.users u = assocFind s.users u := by
        intro t ht
        rcases runOp_award_cases s v p r with h | ⟨us', _, hv', h⟩
        · rw [← ht, h]
        · rw [← ht, h]
          exact assocFind_replaceUser_other _ _ _ _ (fun hh => hvu hh.symm)
      have := hstep _ rfl
      simp [userTotalZ, userTotal, this, opPoints, hvu]

/-- Accumulation over a whole sequence: with the store available and the
user present, the user's running total after any sequence of operations is
the initial total plus the sum of the points awarded to that user,
regardless of interleaving with other users' operations. -/
lemma runOps_totalZ (ops : List Op) :
    ∀ (s : GState) (u : String), s.dbFail = false →
      (assocFind s.users u).isSome →
      userTotalZ (runOps s ops) u = userTotalZ s u + awardSum u ops := by
  induction ops with
  | nil =>
    intro s u _ _
    simp [runOps, awardSum]
  | cons op ops ih =>
    intro s u hdb hu
    have h1 : (runOp s op).dbFail = false := by rw [runOp_dbFail]; exact hdb
    have h2 : (assocFind (runOp s op).users u).isSome := by
      rw [runOp_isSome]; exact hu
    have hstep : userTotalZ (runOps s (op :: ops)) u
        = userTotalZ (runOps (runOp s op) ops) u := rfl
    rw [hstep, ih (runOp s op) u h1 h2, runOp_totalZ s op u hdb hu]
    simp [awardSum]
    ring

/-- Appending the grant documents of an evaluate run extends the earned
badge-type list by exactly the granted types. -/
lemma earnedTypes_append_grants (olds : List BadgeDoc) (u : String)
    (new : List String) (nowv : Nat) :
    ((olds ++ new.map (mkBadgeDoc nowv u)).filter
        (fun d => decide (d.userId = u))).map (·.type)
      = (olds.filter (fun d => decide (d.userId = u))).map (·.type) ++ new := by
  rw [List.filter_append, List.map_append]
  congr 1
  induction new with
  | nil => rfl
  | cons b rest ih => simp [mkBadgeDoc, ih]

/-- The counters only read the submissions collection. -/
lemma counters_eq_of_submissions_eq (s s' : GState) (u : String)
    (h : s'.submissions = s.submissions) :
    completedCount s' u = completedCount s u ∧ perfectCount s' u = perfectCount s u := by
  constructor <;>
    simp [completedCount, perfectCount, approvedSubmissionsOf, userSubmissions, h]

/-- Membership in the rules table with a true condition, spelt out as the
six criteria. -/
lemma badgeRules_mem_iff (n1 n2 n3 : Nat) (b : String) :
    (∃ c, (b, c) ∈ badgeRules n1 n2 n3 ∧ c = true) ↔
      ((b = "first_steps" ∧ 1 ≤ n1) ∨ (b = "explorer" ∧ 5 ≤ n1) ∨
       (b = "adventurer" ∧ 10 ≤ n1) ∨ (b = "master_explorer" ∧ 25 ≤ n1) ∨
       (b = "photographer" ∧ 10 ≤ n2) ∨ (b = "perfectionist" ∧ 5 ≤ n3)) := by
  constructor
  · rintro ⟨c, hmem, rfl⟩
    simp only [badgeRules, List.mem_cons, List.mem_singleton, Prod.mk.injEq,
      List.not_mem_nil, or_false] at hmem
    rcases hmem with ⟨hb, hc⟩ | ⟨hb, hc⟩ | ⟨hb, hc⟩ | ⟨hb, hc⟩ | ⟨hb, hc⟩ | ⟨hb, hc⟩
    · exact Or.inl ⟨hb, of_decide_eq_true hc.symm⟩
    · exact Or.inr (Or.inl ⟨hb, of_decide_eq_true hc.symm⟩)
    · exact Or.inr (Or.inr (Or.inl ⟨hb, of_decide_eq_true hc.symm⟩))
    · exact Or.inr (Or.inr (Or.inr (Or.inl ⟨hb, of_decide_eq_true hc.symm⟩)))
    · exact Or.inr (Or.inr (Or.inr (Or.inr (Or.inl ⟨hb, of_decide_eq_true hc.symm⟩))))
    · exact Or.inr (Or.inr (Or.inr (Or.inr (Or.inr ⟨hb, of_decide_eq_true hc.symm⟩))))
  · intro hdisj
    rcases hdisj with ⟨hb, hn⟩ | ⟨hb, hn⟩ | ⟨hb, hn⟩ | ⟨hb, hn⟩ | ⟨hb, hn⟩ | ⟨hb, hn⟩ <;>
      subst hb <;> refine ⟨true, ?_, rfl⟩ <;> simp [badgeRules, decide_eq_true_eq, hn]

lemma runOp_award_badges (s : GState) (u : String) (p : Int) (r : String) :
    (runOp s (.award u p r)).badges = s.badges := by
  rcases runOp_award_cases s u p r with h | ⟨us, _, _, h⟩ <;> rw [h]

/-- One evaluate step preserves the no-duplicate-grant invariant: every
granted type was absent from the earned list, the granted types are
pairwise distinct, and nothing else is appended. -/
lemma evaluate_preserves_grants (s : GState) (u : String) (h : atMostOneGrant s) :
    atMostOneGrant ((GamificationService.checkAndAwardBadges s u).2) := by
  by_cases hdb : s.dbFail = true
  · rw [check_dbFail s u hdb]
    exact h
  · have hdb' : s.dbFail = false := by simpa using hdb
    by_cases hs : (assocFind s.users u).isSome
    · obtain ⟨us, hu⟩ := Option.isSome_iff_exists.mp hs
      obtain ⟨new, s', heq, _, _, _, _, hbadges, hsublist, hiff⟩ :=
        check_found_spec s u us hdb' hu
      rw [heq]
      show atMostOneGrant s'
      unfold atMostOneGrant at h ⊢
      rw [hbadges, List.pairwise_append]
      refine ⟨h, ?_, ?_⟩
      · rw [List.pairwise_map]
        have hnodup : new.Nodup := hsublist.nodup (by decide)
        exact hnodup.imp (fun hab hcon => hab hcon.2)
      · intro d hd doc hdoc
        obtain ⟨b, hbmem, rfl⟩ := List.mem_map.mp hdoc
        rintro ⟨huid, hty⟩
        have hne := ((hiff b).mp hbmem).1
        apply hne
        show b ∈ (userBadges s u).map (·.type)
        simp [mkBadgeDoc] at huid hty
        refine List.mem_map.mpr ⟨d, ?_, hty⟩
        exact List.mem_filter.mpr ⟨hd, by simp [huid]⟩
    · have hu := Option.not_isSome_iff_eq_none.mp hs
      rw [check_not_found s u hu]
      exact h

/-- C3: at most one grant ever exists per (userId, badge type) pair — the
no-duplicate-grant invariant is preserved by every sequence of award and
evaluate operations. -/
theorem no_duplicate_badges (ops : List Op) :
    ∀ (s : GState), atMostOneGrant s → atMostOneGrant (runOps s ops) := by
  induction ops with
  | nil =>
    intro s h
    exact h
  | cons op ops ih =>
    intro s h
    have hstep : atMostOneGrant (runOp s op) := by
      cases op with
      | award u p r =>
        unfold atMostOneGrant at h ⊢
        rw [runOp_award_badges]
        exact h
      | evaluate u => exact evaluate_preserves_grants s u h
    exact ih (runOp s op) hstep

/-- C3 witness: a concrete run — evaluate, award, evaluate — starting from
a store with one approved submission, ends with no duplicate grants. -/
theorem no_duplicate_badges_witness :
    atMostOneGrant (runOps oneSubState
      [Op.evaluate "u1", Op.award "u1" 100 "x", Op.evaluate "u1"]) :=
  no_duplicate_badges [Op.evaluate "u1", Op.award "u1" 100 "x", Op.evaluate "u1"]
    oneSubState (by decide)

/-- C4: the criteria evaluate implements are exactly the catalogued set —
approved-completion thresholds 1/5/10/25 (first steps, explorer,
adventurer, master explorer), the approved-submission threshold 10
(photographer), and five approved submissions with score at least 95
(perfectionist) — and a badge is granted exactly when its counter meets the
threshold and it has not been granted before. -/
theorem badge_criteria_exact (s : GState) (u b : String) (hdb : s.dbFail = false) :
    b ∈ (GamificationService.checkAndAwardBadges s u).1 ↔
      ((assocFind s.users u).isSome ∧ b ∉ earnedTypes s u ∧
        ((b = "first_steps" ∧ 1 ≤ completedCount s u) ∨
         (b = "explorer" ∧ 5 ≤ completedCount s u) ∨
         (b = "adventurer" ∧ 10 ≤ completedCount s u) ∨
         (b = "master_explorer" ∧ 25 ≤ completedCount s u) ∨
         (b = "photographer" ∧ 10 ≤ completedCount s u) ∨
         (b = "perfectionist" ∧ 5 ≤ perfectCount s u))) := by
  by_cases hs : (assocFind s.users u).isSome
  · obtain ⟨us, hu⟩ := Option.isSome_iff_exists.mp hs
    obtain ⟨new, s', heq, _, _, _, _, _, _, hiff⟩ := check_found_spec s u us hdb hu
    rw [heq]
    show b ∈ new ↔ _
    rw [hiff b, badgeRules_mem_iff]
    constructor
    · rintro ⟨hne, hd⟩
      exact ⟨hs, hne, hd⟩
    · rintro ⟨_, hne, hd⟩
      exact ⟨hne, hd⟩
  · have hu := Option.not_isSome_iff_eq_none.mp hs
    rw [check_not_found s u hu]
    simp [hs]

/-- C4 witness: the characterization instantiated at a store where the
first-steps criterion has just been met. -/
theorem badge_criteria_exact_witness :
    "first_steps" ∈ (GamificationService.checkAndAwardBadges oneSubState "u1").1 ↔
      ((assocFind oneSubState.users "u1").isSome ∧
        "first_steps" ∉ earnedTypes oneSubState "u1" ∧
        (("first_steps" = "first_steps" ∧ 1 ≤ completedCount oneSubState "u1") ∨
         ("first_steps" = "explorer" ∧ 5 ≤ completedCount oneSubState "u1") ∨
         ("first_steps" = "adventurer" ∧ 10 ≤ completedCount oneSubState "u1") ∨
         ("first_steps" = "master_explorer" ∧ 25 ≤ completedCount oneSubState "u1") ∨
         ("first_steps" = "photographer" ∧ 10 ≤ completedCount oneSubState "u1") ∨
         ("first_steps" = "perfectionist" ∧ 5 ≤ perfectCount oneSubState "u1"))) :=
  badge_criteria_exact oneSubState "u1" "first_steps" rfl

/-- C9: evaluating badges for a user id that references no existing user
returns the empty list of newly granted badges and leaves the store
unchanged — it does not fail and grants nothing. -/
theorem evaluate_unknown_user (s : GState) (u : String)
    (hu : assocFind s.users u = none) :
    GamificationService.checkAndAwardBadges s u = ([], s) :=
  check_not_found s u hu

/-- C9 witness: evaluating an unknown user on the empty store. -/
theorem evaluate_unknown_user_witness :
    GamificationService.checkAndAwardBadges emptyState "ghost" = ([], emptyState) :=
  evaluate_unknown_user emptyState "ghost" rfl

/-- C1 counterexample: the source's `awardPoints` resolves `Promise<void>`.
At the concrete input it succeeds and the stored `totalPoints` becomes 100
(= previousTotal 0 + points 100), but the value the operation resolves is
the unit value — not the new total.  The spec-modelled `Ledger.award` shows
the value the §4.1 contract would return (100). -/
theorem awardPoints_returns_no_total :
    (GamificationService.awardPoints demoState "u1" 100 "challenge").map Prod.fst
      = Except.ok () ∧
    (GamificationService.awardPoints demoState "u1" 100 "challenge").map
      (fun res => userTotal res.2 "u1") = Except.ok (some 100) ∧
    (Ledger.award demoState "u1" 100 "challenge").map Prod.fst = Except.ok 100 :=
  ⟨rfl, rfl, rfl⟩

/-- C1 (amended): a successful award adds exactly `points` to the user's
stored `totalPoints` (resolving no value), and after any sequence of
operations the user's total — read the way the service reads it, with a
missing field counting 0 — equals the initial total (0 for a freshly
registered user) plus the sum of the `points` arguments of the award calls
for that user, regardless of interleaving with other users' operations. -/
theorem award_total_accumulation :
    (∀ (s : GState) (u : String) (p : Int) (r : String) (us : User),
        s.dbFail = false → assocFind s.users u = some us →
        ∃ s', GamificationService.awardPoints s u p r = .ok ((), s') ∧
          userTotal s' u = some (orZero us.totalPoints + p)) ∧
    (∀ (s : GState) (ops : List Op) (u : String),
        s.dbFail = false → (assocFind s.users u).isSome →
        userTotalZ (runOps s ops) u = userTotalZ s u + awardSum u ops) := by
  constructor
  · intro s u p r us hdb hu
    refine ⟨_, awardPoints_ok s u p r us hdb hu, ?_⟩
    simp [userTotal, assocFind_replaceUser_same, hu, applyUpdates]
  · intro s ops u hdb hu
    exact runOps_totalZ ops s u hdb hu

/-- C1 witness: one award on a freshly registered user stores total 100;
a four-operation interleaved run accumulates exactly the award sum. -/
theorem award_total_accumulation_witness :
    (∃ s', GamificationService.awardPoints demoState "u1" 100 "challenge"
        = .ok ((), s') ∧
      userTotal s' "u1" = some (orZero demoUser.totalPoints + 100)) ∧
    userTotalZ (runOps demoState
        [Op.award "u1" 100 "a", Op.award "u2" 7 "b", Op.evaluate "u1",
         Op.award "u1" 50 "c"]) "u1"
      = userTotalZ demoState "u1"
        + awardSum "u1" [Op.award "u1" 100 "a", Op.award "u2" 7 "b",
            Op.evaluate "u1", Op.award "u1" 50 "c"] :=
  ⟨award_total_accumulation.1 demoState "u1" 100 "challenge" demoUser rfl rfl,
   award_total_accumulation.2 demoState
     [Op.award "u1" 100 "a", Op.award "u2" 7 "b", Op.evaluate "u1",
      Op.award "u1" 50 "c"] "u1" rfl (by decide)⟩

/-- C6: awarding points to a user id that references no existing user fails
with the user-not-found error, and the store is unchanged — no entry is
appended and no total changes. -/
theorem award_user_not_found (s : GState) (u : String) (p : Int) (r : String)
    (hdb : s.dbFail = false) (hu : assocFind s.users u = none) :
    GamificationService.awardPoints s u p r = .error "User not found" ∧
    runOp s (.award u p r) = s := by
  have h := awardPoints_not_found s u p r hdb hu
  exact ⟨h, by simp [runOp, h]⟩

/-- C6 witness: awarding to an unknown user on a concrete store. -/
theorem award_user_not_found_witness :
    GamificationService.awardPoints demoState "ghost" 25 "x"
      = .error "User not found" ∧
    runOp demoState (.award "ghost" 25 "x") = demoState :=
  award_user_not_found demoState "ghost" 25 "x" rfl rfl

/-- C10: the frame effect of a successful award — the user's `points` and
`totalPoints` fields both grow by exactly the awarded amount, `updatedAt`
is stamped with the current time, every other field of the user is
unchanged, every other user is unchanged, and the submissions and badges
collections are untouched. -/
theorem award_frame_effect (s : GState) (u : String) (p : Int) (r : String) (us : User)
    (hdb : s.dbFail = false) (hu : assocFind s.users u = some us) :
    ∃ s', GamificationService.awardPoints s u p r = .ok ((), s') ∧
      assocFind s'.users u = some { us with
        points := some (orZero us.points + p),
        totalPoints := some (orZero us.totalPoints + p),
        updatedAt := s.now } ∧
      (∀ v, v ≠ u → assocFind s'.users v = assocFind s.users v) ∧
      s'.submissions = s.submissions ∧ s'.badges = s.badges ∧
      s'.dbFail = s.dbFail ∧ s'.now = s.now := by
  refine ⟨_, awardPoints_ok s u p r us hdb hu, ?_, ?_, rfl, rfl, rfl, rfl⟩
  · show assocFind (replaceUser s.users u _) u = _
    rw [assocFind_replaceUser_same, hu]
    rfl
  · intro v hv
    exact assocFind_replaceUser_other s.users u v _ hv

/-- C10 witness: the frame effect at a concrete award. -/
theorem award_frame_effect_witness :
    ∃ s', GamificationService.awardPoints demoState "u1" 100 "challenge"
        = .ok ((), s') ∧
      assocFind s'.users "u1" = some { demoUser with
        points := some (orZero demoUser.points + 100),
        totalPoints := some (orZero demoUser.totalPoints + 100),
        updatedAt := demoState.now } ∧
      (∀ v, v ≠ "u1" → assocFind s'.users v = assocFind demoState.users v) ∧
      s'.submissions = demoState.submissions ∧ s'.badges = demoState.badges ∧
      s'.dbFail = demoState.dbFail ∧ s'.now = demoState.now :=
  award_frame_effect demoState "u1" 100 "challenge" demoUser rfl rfl

/-- C5 (modelled from the spec, no level-derivation code exists under the
source tree): the threshold-table level function is monotone in
`totalPoints`, and zero points is level 1. -/
theorem level_monotone_and_base :
    (∀ a b : Int, a ≤ b → levelOf a ≤ levelOf b) ∧ levelOf 0 = 1 := by
  constructor
  · intro a b hab
    show (levelThresholds.filter (fun t => decide (t ≤ a))).length
        ≤ (levelThresholds.filter (fun t => decide (t ≤ b))).length
    rw [← List.countP_eq_length_filter, ← List.countP_eq_length_filter]
    refine List.countP_mono_left ?_
    intro t _ ht
    exact decide_eq_true (le_trans (of_decide_eq_true ht) hab)
  · decide

/-- C5 witness: monotonicity at 3 ≤ 250 and the base case. -/
theorem level_monotone_and_base_witness :
    levelOf 3 ≤ levelOf 250 ∧ levelOf 0 = 1 :=
  ⟨level_monotone_and_base.1 3 250 (by decide), level_monotone_and_base.2⟩

/-- C7: `getUserRank` is a placeholder that resolves rank 1 of 100 users at
the 99th percentile for every input — here for a user id that references no
user in an empty store — instead of failing with an unranked-user error as
the specified contract requires. -/
theorem getUserRank_placeholder_ignores_user :
    assocFind emptyState.users "ghost" = none ∧
    GamificationService.getUserRank emptyState "ghost"
      = .ok { rank := 1, totalUsers := 100, percentile := 99 } :=
  ⟨rfl, rfl⟩

/-- C8 counterexample: with the durable store unavailable, the badge
evaluation's inner Firestore reads reject with the persistence error, but
`checkAndAwardBadges` catches the error and returns the normal-looking
empty list with the store unchanged — the error never reaches the caller. -/
theorem evaluate_swallows_persistence_error :
    GamificationService.checkAndAwardBadgesCore failState "u1"
      = .error "PersistenceError" ∧
    GamificationService.checkAndAwardBadges failState "u1" = ([], failState) :=
  ⟨rfl, rfl⟩

/-- C8 (amended): `awardPoints` propagates storage errors to its immediate
caller, but `checkAndAwardBadges` catches every error and returns an empty
list as if nothing went wrong. -/
theorem error_propagation_contrast :
    (∀ (s : GState) (u : String) (p : Int) (r : String), s.dbFail = true →
        GamificationService.awardPoints s u p r = .error "PersistenceError") ∧
    (∀ (s : GState) (u : String), s.dbFail = true →
        GamificationService.checkAndAwardBadges s u = ([], s)) := by
  constructor
  · intro s u p r h
    exact awardPoints_dbFail s u p r h
  · intro s u h
    exact check_dbFail s u h

/-- C8 witness: the contrast at a concrete unavailable store. -/
theorem error_propagation_contrast_witness :
    GamificationService.awardPoints failState "u1" 10 "x"
      = .error "PersistenceError" ∧
    GamificationService.checkAndAwardBadges failState "u2" = ([], failState) :=
  ⟨error_propagation_contrast.1 failState "u1" 10 "x" rfl,
   error_propagation_contrast.2 failState "u2" rfl⟩

/-- When every rule with a true condition names an already-earned type, the
badge-check run performs no write, consumes no schedule entry, and cannot
fail. -/
lemma runRulesF_no_new (userId : String) (earned : List String) :
    ∀ (rules : List (String × Bool)) (s0 : GState) (faults : List Bool)
      (acc : List String),
      (∀ b c, (b, c) ∈ rules → c = true → b ∈ earned) →
      runRulesF userId earned (s0, faults, acc) rules = .ok (s0, faults, acc) := by
  intro rules
  induction rules with
  | nil =>
    intro s0 faults acc _
    rfl
  | cons rule rest ih =>
    intro s0 faults acc h
    obtain ⟨bn, cond⟩ := rule
    have hc : ¬ ((cond && !(earned.contains bn)) = true) := by
      intro hc
      obtain ⟨hcond, hne⟩ : cond = true ∧ bn ∉ earned := by simpa using hc
      exact hne (h bn cond (List.mem_cons_self _ _) hcond)
    have hstep : tryAwardF userId earned (s0, faults, acc) (bn, cond)
        = .ok (s0, faults, acc) := by
      simp only [tryAwardF]
      rw [if_neg hc]
    simp only [runRulesF, hstep]
    exact ih s0 faults acc (fun b c hm hcc => h b c (List.mem_cons_of_mem _ hm) hcc)

/-- A badge-check run with an empty failure schedule behaves exactly like
the coarse model with the store available: it succeeds, appends the granted
types, and grants a type exactly when a rule for it holds and it was not
among the initially fetched types. -/
lemma runRulesF_nil_spec (userId : String) (earned : List String) :
    ∀ (rules : List (String × Bool)) (s0 : GState) (acc : List String),
      ∃ (s' : GState) (new : List String),
        runRulesF userId earned (s0, [], acc) rules = .ok (s', [], acc ++ new) ∧
        s'.users = s0.users ∧ s'.submissions = s0.submissions ∧ s'.now = s0.now ∧
        s'.badges = s0.badges ++ new.map (mkBadgeDoc s0.now userId) ∧
        (∀ b, b ∈ new ↔ (b ∉ earned ∧ ∃ c, (b, c) ∈ rules ∧ c = true)) := by
  intro rules
  induction rules with
  | nil =>
    intro s0 acc
    refine ⟨s0, [], by simp [runRulesF], rfl, rfl, rfl, by simp, ?_⟩
    intro b
    simp
  | cons rule rest ih =>
    intro s0 acc
    obtain ⟨bn, cond⟩ := rule
    by_cases hc : (cond && !(earned.contains bn)) = true
    · obtain ⟨hcond, hnotearned⟩ : cond = true ∧ bn ∉ earned := by simpa using hc
      have hstep : tryAwardF userId earned (s0, [], acc) (bn, cond)
          = .ok ({ s0 with badges := s0.badges ++ [mkBadgeDoc s0.now userId bn] },
                 [], acc ++ [bn]) := by
        simp only [tryAwardF]
        rw [if_pos hc]
        rfl
      obtain ⟨s', new', hrun, hu, hs, hn, hb, hiff⟩ :=
        ih { s0 with badges := s0.badges ++ [mkBadgeDoc s0.now userId bn] }
          (acc ++ [bn])
      refine ⟨s', bn :: new', ?_, hu, hs, hn, ?_, ?_⟩
      · simp only [runRulesF, hstep, hrun]
        simp
      · rw [hb]
        simp
      · intro b
        constructor
        · intro hbmem
          rcases List.mem_cons.mp hbmem with hb1 | hb2
          · subst hb1
            exact ⟨hnotearned, cond, List.mem_cons_self _ _, hcond⟩
          · obtain ⟨hne, c, hcmem, hctrue⟩ := (hiff b).mp hb2
            exact ⟨hne, c, List.mem_cons_of_mem _ hcmem, hctrue⟩
        · rintro ⟨hne, c, hcmem, hctrue⟩
          rcases List.mem_cons.mp hcmem with heq | hcm
          · exact List.mem_cons.mpr (Or.inl (congrArg Prod.fst heq))
          · exact List.mem_cons.mpr (Or.inr ((hiff b).mpr ⟨hne, c, hcm, hctrue⟩))
    · have hstep : tryAwardF userId earned (s0, [], acc) (bn, cond)
          = .ok (s0, [], acc) := by
        simp only [tryAwardF]
        rw [if_neg hc]
      obtain ⟨s', new', hrun, hu, hs, hn, hb, hiff⟩ := ih s0 acc
      refine ⟨s', new', ?_, hu, hs, hn, hb, ?_⟩
      · simp only [runRulesF, hstep, hrun]
      · intro b
        constructor
        · intro hbmem
          obtain ⟨hne, c, hcmem, hctrue⟩ := (hiff b).mp hbmem
          exact ⟨hne, c, List.mem_cons_of_mem _ hcmem, hctrue⟩
        · rintro ⟨hne, c, hcmem, hctrue⟩
          rcases List.mem_cons.mp hcmem with heq | hcm
          · exfalso
            have hbbn : b = bn := congrArg Prod.fst heq
            have hccond : c = cond := congrArg Prod.snd heq
            have hcondtrue : cond = true := hccond ▸ hctrue
            have hbnin : bn ∈ earned := by
              simp [hcondtrue] at hc
              exact hc
            exact hne (hbbn ▸ hbnin)
          · exact (hiff b).mpr ⟨hne, c, hcm, hctrue⟩

/-- With an empty failure schedule and the user present, the per-call
`try` body reduces to the badge-check run over the top-level counters. -/
lemma checkCoreF_nil_found (s : GState) (u : String) (us : User)
    (hu : assocFind s.users u = some us) :
    GamificationService.checkAndAwardBadgesCoreF s [] u
      = match runRulesF u (earnedTypes s u) (s, [], [])
          (badgeRules (completedCount s u) (completedCount s u) (perfectCount s u)) with
        | .error e => .error e
        | .ok (s', f', newBadges) => .ok (newBadges, s', f') := by
  simp only [GamificationService.checkAndAwardBadgesCoreF, FirebaseService.getUserF,
    FirebaseService.getUserBadgesF, FirebaseService.getUserSubmissionsF, nextFault, hu]
  rfl

/-- Full behaviour of a failure-free `checkAndAwardBadgesF` run for an
existing user: it returns the granted types, appends exactly those grant
documents, and changes nothing else. -/
lemma checkF_nil_spec (s : GState) (u : String) (us : User)
    (hu : assocFind s.users u = some us) :
    ∃ (new : List String) (s' : GState),
      GamificationService.checkAndAwardBadgesF s [] u = (new, s', []) ∧
      s'.users = s.users ∧ s'.submissions = s.submissions ∧ s'.now = s.now ∧
      s'.badges = s.badges ++ new.map (mkBadgeDoc s.now u) ∧
      (∀ b, b ∈ new ↔ (b ∉ earnedTypes s u ∧ ∃ c,
        (b, c) ∈ badgeRules (completedCount s u) (completedCount s u)
          (perfectCount s u) ∧ c = true)) := by
  obtain ⟨s', new, hrun, hus, hsubs, hnow, hbadges, hiff⟩ :=
    runRulesF_nil_spec u (earnedTypes s u)
      (badgeRules (completedCount s u) (completedCount s u) (perfectCount s u)) s []
  refine ⟨new, s', ?_, hus, hsubs, hnow, hbadges, hiff⟩
  rw [GamificationService.checkAndAwardBadgesF, checkCoreF_nil_found s u us hu, hrun]
  simp

/-- Evaluating an unknown user under the per-call failure model always
returns the empty list, whatever the schedule. -/
lemma checkF_unknown (s : GState) (faults : List Bool) (u : String)
    (hu : assocFind s.users u = none) :
    (GamificationService.checkAndAwardBadgesF s faults u).1 = [] := by
  rcases hf : nextFault faults with ⟨b, rest⟩
  cases b
  · simp [GamificationService.checkAndAwardBadgesF,
      GamificationService.checkAndAwardBadgesCoreF, FirebaseService.getUserF, hf, hu]
  · simp [GamificationService.checkAndAwardBadgesF,
      GamificationService.checkAndAwardBadgesCoreF, FirebaseService.getUserF, hf]

/-- When every criterion that holds names an already-earned type, a
`checkAndAwardBadgesF` run returns the empty list for every failure
schedule: every completed run grants nothing, and every rejected run is
caught and returns the empty list. -/
lemma checkF_no_eligible (s : GState) (faults : List Bool) (u : String)
    (h : ∀ b c, (b, c) ∈ badgeRules (completedCount s u) (completedCount s u)
        (perfectCount s u) → c = true → b ∈ earnedTypes s u) :
    (GamificationService.checkAndAwardBadgesF s faults u).1 = [] := by
  rcases hf1 : nextFault faults with ⟨b1, r1⟩
  cases b1
  · cases hu : assocFind s.users u with
    | none =>
      simp [GamificationService.checkAndAwardBadgesF,
        GamificationService.checkAndAwardBadgesCoreF, FirebaseService.getUserF, hf1, hu]
    | some us =>
      rcases hf2 : nextFault r1 with ⟨b2, r2⟩
      cases b2
      · rcases hf3 : nextFault r2 with ⟨b3, r3⟩
        cases b3
        · have hrun := runRulesF_no_new u (earnedTypes s u)
            (badgeRules (completedCount s u) (completedCount s u) (perfectCount s u))
            s r3 [] h
          have hcore : GamificationService.checkAndAwardBadgesCoreF s faults u
              = match runRulesF u (earnedTypes s u) (s, r3, [])
                  (badgeRules (completedCount s u) (completedCount s u)
                    (perfectCount s u)) with
                | .error e => .error e
                | .ok (s4, f4, newBadges) => .ok (newBadges, s4, f4) := by
            simp only [GamificationService.checkAndAwardBadgesCoreF,
              FirebaseService.getUserF, FirebaseService.getUserBadgesF,
              FirebaseService.getUserSubmissionsF, hf1, hf2, hf3, hu]
            rfl
          rw [GamificationService.checkAndAwardBadgesF, hcore, hrun]
        · simp [GamificationService.checkAndAwardBadgesF,
            GamificationService.checkAndAwardBadgesCoreF, FirebaseService.getUserF,
            FirebaseService.getUserBadgesF, FirebaseService.getUserSubmissionsF,
            hf1, hf2, hf3, hu]
      · simp [GamificationService.checkAndAwardBadgesF,
          GamificationService.checkAndAwardBadgesCoreF, FirebaseService.getUserF,
          FirebaseService.getUserBadgesF, hf1, hf2, hu]
  · simp [GamificationService.checkAndAwardBadgesF,
      GamificationService.checkAndAwardBadgesCoreF, FirebaseService.getUserF, hf1]

/-- C2 counterexample: the source awaits each `awardBadge` separately with
no rollback, so badge evaluation is not idempotent across a partial
failure.  With five approved submissions and no badges, a first run whose
fifth Firestore call (the explorer grant, after the three reads and the
successful first-steps grant) rejects is caught and returns `[]`, leaving
`first_steps` written; a second run with no failures and no intervening
award — counters unchanged — then returns `["explorer"]`, not the empty
set the claim requires. -/
theorem evaluate_partial_failure_not_idempotent :
    (GamificationService.checkAndAwardBadgesF fiveSubState
        [false, false, false, false, true] "u1").1 = [] ∧
    ((GamificationService.checkAndAwardBadgesF fiveSubState
        [false, false, false, false, true] "u1").2.1).badges
      = [mkBadgeDoc 9 "u1" "first_steps"] ∧
    ((GamificationService.checkAndAwardBadgesF fiveSubState
        [false, false, false, false, true] "u1").2.1).submissions
      = fiveSubState.submissions ∧
    (GamificationService.checkAndAwardBadgesF
        ((GamificationService.checkAndAwardBadgesF fiveSubState
          [false, false, false, false, true] "u1").2.1) [] "u1").1
      = ["explorer"] := by
  refine ⟨?_, ?_, ?_, ?_⟩ <;> decide

/-- C2 (amended): badge evaluation is idempotent provided the first call
completes without a storage rejection — after a `checkAndAwardBadges` run
in which no Firestore call rejects, a second run with no intervening award
(counters unchanged) grants no new badges, whatever storage failures the
second run itself may hit. -/
theorem evaluate_idempotent_without_failure (s : GState) (u : String)
    (faults2 : List Bool) :
    (GamificationService.checkAndAwardBadgesF
      ((GamificationService.checkAndAwardBadgesF s [] u).2.1) faults2 u).1 = [] := by
  by_cases hs : (assocFind s.users u).isSome
  · obtain ⟨us, hu⟩ := Option.isSome_iff_exists.mp hs
    obtain ⟨new, s', heq, hus, hsubs, hnow, hbadges, hiff⟩ := checkF_nil_spec s u us hu
    rw [heq]
    show (GamificationService.checkAndAwardBadgesF s' faults2 u).1 = []
    apply checkF_no_eligible
    intro b c hm hc
    rcases counters_eq_of_submissions_eq s s' u hsubs with ⟨hcc, hpp⟩
    rw [hcc, hpp] at hm
    have hearned : earnedTypes s' u = earnedTypes s u ++ new := by
      show (s'.badges.filter (fun d => decide (d.userId = u))).map (·.type)
          = (s.badges.filter (fun d => decide (d.userId = u))).map (·.type) ++ new
      rw [hbadges]
      exact earnedTypes_append_grants s.badges u new s.now
    rw [hearned]
    by_cases hbn : b ∈ earnedTypes s u
    · exact List.mem_append.mpr (Or.inl hbn)
    · exact List.mem_append.mpr (Or.inr ((hiff b).mpr ⟨hbn, c, hm, hc⟩))
  · have hu := Option.not_isSome_iff_eq_none.mp hs
    have h1 : GamificationService.checkAndAwardBadgesF s [] u = ([], s, []) := by
      simp [GamificationService.checkAndAwardBadgesF,
        GamificationService.checkAndAwardBadgesCoreF, FirebaseService.getUserF,
        nextFault, hu]
    rw [h1]
    exact checkF_unknown s faults2 u hu
